import Mathlib

/-!
Verification of the version-resolution spider library.

The Python module under verification defines a shared normalization helper
`_beautify_version`, a predicate `_contains_version`, and a family of spider
classes each exposing `get_version(beautify)`.  Network / file / cluster
access is modelled by passing the list of raw candidate strings (tag names,
file lines, hyperlinks, structured cluster data) that the backend would have
produced; everything downstream of that input is translated faithfully from
the source.
-/

/-- Failures a spider can raise: `indexError` models a Python `IndexError`
from `xs[0]` on an empty list, `valueError` models an explicitly raised
`ValueError` with its message. -/
inductive SpiderError where
  | indexError : SpiderError
  | valueError (msg : String) : SpiderError
deriving DecidableEq

/-- Model of Python `str.split(sep)` for a single-character separator,
on the character list of the string.  Always returns a non-empty list of
parts; adjacent separators yield empty parts, as in Python. -/
def splitOnChar (sep : Char) : List Char → List (List Char)
  | [] => [[]]
  | c :: rest =>
      let parts := splitOnChar sep rest
      if c == sep then [] :: parts
      else
        match parts with
        | [] => [[c]]
        | p :: ps => (c :: p) :: ps

/-- Model of Python `s.startswith(pre)` / `str.startswith`. -/
def strStartsWith (s pre : String) : Bool :=
  pre.toList.isPrefixOf s.toList

/-- Translation of `_beautify_version(version, beautify)`:
if `beautify` is false the input is returned unchanged; otherwise the code
runs `version.lstrip('v')` (dropping every leading `v`), removes a
`release-` prefix when present, and if a `-` remains takes
`split('-')[0]`. -/
def _beautify_version (version : String) (beautify : Bool) : String :=
  if !beautify then version
  else
    let bv1 := version.toList.dropWhile (fun c => c == 'v')
    let bv2 := if "release-".toList.isPrefixOf bv1 then bv1.drop 8 else bv1
    let bv3 := if bv2.contains '-' then (splitOnChar '-' bv2).headD [] else bv2
    String.mk bv3

/-- Reference normalization following the claim text literally: strip a
SINGLE leading `v` character, then the `release-` prefix, then truncate at
the first `-`. -/
def beautifySpecSingleV (version : String) : String :=
  let s1 :=
    match version.toList with
    | 'v' :: rest => rest
    | l => l
  let s2 := if "release-".toList.isPrefixOf s1 then s1.drop 8 else s1
  let s3 := s2.takeWhile (fun c => !(c == '-'))
  String.mk s3

/-- Reference normalization with the amended first step: strip ALL leading
`v` characters (implemented by explicit recursion, independently of the
`dropWhile` used in the code translation), then the `release-` prefix, then
truncate at the first `-`. -/
def stripLeadingVChars : List Char → List Char
  | [] => []
  | c :: rest => if c == 'v' then stripLeadingVChars rest else c :: rest

/-- Four-step reference definition of normalization with "all leading `v`
characters" in step one. -/
def beautifySpecAllV (version : String) : String :=
  let s1 := stripLeadingVChars version.toList
  let s2 := if "release-".toList.isPrefixOf s1 then s1.drop 8 else s1
  let s3 := s2.takeWhile (fun c => !(c == '-'))
  String.mk s3

/-- Translation of `GithubPrefixReleaseSpider.get_version`: scan the
releases in API order; for each, beautify its tag (always with
normalization) and test `startswith` against the configured filter string;
on the first hit return the beautified tag when `beautify` is true and the
raw tag otherwise; raise a `ValueError` naming the filter string when no
release matches. -/
def GithubPrefixReleaseSpider.get_version :
    List String → String → Bool → Except SpiderError String
  | [], pfx, _ =>
      .error (.valueError ("Failed to locate a release matching prefix: " ++ pfx))
  | tag :: rest, pfx, b =>
      if strStartsWith (_beautify_version tag true) pfx then
        .ok (if b then _beautify_version tag true else tag)
      else GithubPrefixReleaseSpider.get_version rest pfx b

/-- Helper for the Dockerfile regex `^FROM .*:v?(\d+.*)$`: given the text
after a candidate `:`, decide whether `v?(\d+.*)$` matches there and return
the capture group.  The greedy `v?` first consumes a `v` when the next
character is a digit; otherwise the group must itself start with a digit.
`.*` imposes no further constraint on the remainder of the line. -/
def fromGroup : List Char → Option (List Char)
  | [] => none
  | c :: rest =>
      if c == 'v' then
        if (rest.headD ' ').isDigit then some rest else none
      else if c.isDigit then some (c :: rest) else none

/-- Helper for the Dockerfile regex: the greedy `.*` before the `:` makes
the engine choose the RIGHTMOST `:` whose suffix matches `v?(\d+.*)$`;
scanning recursively prefers a match found further right. -/
def scanColon : List Char → Option (List Char)
  | [] => none
  | c :: rest =>
      match scanColon rest with
      | some g => some g
      | none => if c == ':' then fromGroup rest else none

/-- Translation of `DockerfileSpider`'s compiled regex
`re.match(r'^FROM .*:v?(\d+.*)$', line)` returning `group(1)`.  Lines are
modelled without their trailing newline (Python's `$` matches just before
it and `.*` cannot cross it). -/
def DockerfileSpider.matchVersion (line : String) : Option String :=
  if "FROM ".toList.isPrefixOf line.toList then
    (scanColon (line.toList.drop 5)).map String.mk
  else none

/-- Translation of `DockerfileSpider.get_version`: iterate over the file
lines, return the beautified capture of the first line matching the `FROM`
regex, and raise `ValueError("No version found in {path}")` when no line
matches. -/
def DockerfileSpider.get_version :
    List String → String → Bool → Except SpiderError String
  | [], path, _ => .error (.valueError ("No version found in " ++ path))
  | line :: rest, path, b =>
      match DockerfileSpider.matchVersion line with
      | some g => .ok (_beautify_version g b)
      | none => DockerfileSpider.get_version rest path b

/-- Regex building block: `\d+` followed by whatever `cont` accepts,
with full backtracking over how many digits `\d+` consumes. -/
def digitsPlus (cont : List Char → Bool) : List Char → Bool
  | [] => false
  | c :: rest => c.isDigit && (cont rest || digitsPlus cont rest)

/-- Regex building block: `.` (any character except newline) followed by
whatever `cont` accepts. -/
def anyCharThen (cont : List Char → Bool) : List Char → Bool
  | [] => false
  | c :: rest => (!(c == '\n')) && cont rest

/-- Regex `$` without MULTILINE: end of string, or just before one final
newline. -/
def atEndDollar (l : List Char) : Bool := l.isEmpty || l == ['\n']

/-- Translation of `BitbucketReleaseSpider`'s filter
`re.compile(r'^\d+.\d+.\d+$')` applied with `re.match`.  The two dots are
NOT escaped in the source, so each matches any character (except a
newline), not only a literal dot. -/
def BitbucketReleaseSpider.version_pattern (s : String) : Bool :=
  digitsPlus (anyCharThen (digitsPlus (anyCharThen (digitsPlus
    atEndDollar)))) s.toList

/-- Translation of `BitbucketReleaseSpider.get_version` over the tag names
returned by the API (requested pre-sorted descending by name): keep the
names matching the filter pattern and take `versions[0]`, which raises an
`IndexError` when nothing survives the filter. -/
def BitbucketReleaseSpider.get_version (tags : List String) (b : Bool) :
    Except SpiderError String :=
  match tags.filter BitbucketReleaseSpider.version_pattern with
  | [] => .error .indexError
  | v :: _ => .ok (_beautify_version v b)

/-- Strict `N.N.N` shape following the claim text: three non-empty runs of
digits separated by literal dots, nothing else. -/
def strict_nnn (s : String) : Bool :=
  match splitOnChar '.' s.toList with
  | [a, b, c] =>
      !a.isEmpty && a.all Char.isDigit && !b.isEmpty && b.all Char.isDigit &&
        !c.isEmpty && c.all Char.isDigit
  | _ => false

/-- Chunk of a natsort key: a maximal run of non-digit characters, or the
integer value of a maximal run of digits. -/
inductive NatChunk where
  | str (s : List Char)
  | num (n : Nat)

/-- Split a string into maximal runs of digit / non-digit characters. -/
def splitRuns : List Char → List (List Char)
  | [] => []
  | c :: rest =>
      match splitRuns rest with
      | [] => [[c]]
      | r :: rs =>
          if (r.headD ' ').isDigit == c.isDigit then (c :: r) :: rs
          else [c] :: r :: rs

/-- Integer value of a digit run. -/
def digitsToNat (l : List Char) : Nat :=
  l.foldl (fun acc c => acc * 10 + (c.toNat - '0'.toNat)) 0

/-- The natsort key of a string under the library's default settings:
digit runs become integers, other runs stay strings, and a leading empty
string chunk is inserted when the string starts with a digit run so that
every key alternates string, integer, string, ... starting with a
string.  Keys of two strings therefore never compare a string chunk
against an integer chunk at the same position. -/
def natKey (s : String) : List NatChunk :=
  let chunks := (splitRuns s.toList).map
    (fun r =>
      if (r.headD ' ').isDigit then NatChunk.num (digitsToNat r)
      else NatChunk.str r)
  match chunks with
  | NatChunk.num _ :: _ => NatChunk.str [] :: chunks
  | _ => chunks

/-- Lexicographic strict order on character lists by code point, as Python
compares strings. -/
def charListLt : List Char → List Char → Bool
  | [], [] => false
  | [], _ :: _ => true
  | _ :: _, [] => false
  | a :: as, b :: bs => if a < b then true else if b < a then false else charListLt as bs

/-- Strict order on key chunks.  The cross-type cases never arise between
generated keys (see `natKey`); they are fixed arbitrarily to keep the
order total. -/
def chunkLt : NatChunk → NatChunk → Bool
  | NatChunk.str a, NatChunk.str b => charListLt a b
  | NatChunk.num a, NatChunk.num b => Nat.blt a b
  | NatChunk.str _, NatChunk.num _ => true
  | NatChunk.num _, NatChunk.str _ => false

/-- Lexicographic (non-strict) order on keys, as Python compares tuples:
a proper prefix compares as smaller. -/
def keyLe : List NatChunk → List NatChunk → Bool
  | [], _ => true
  | _ :: _, [] => false
  | x :: xs, y :: ys =>
      if chunkLt x y then true else if chunkLt y x then false else keyLe xs ys

/-- `a` may precede `b` in the descending order: the key of `b` is at most
the key of `a`. -/
def natDescLe (a b : String) : Bool := keyLe (natKey b) (natKey a)

/-- Stable insertion step for the descending sort: an element moves past
`y` only when its key is strictly smaller, so elements with equal keys
keep their original relative order. -/
def insertNat (x : String) : List String → List String
  | [] => [x]
  | y :: ys => if natDescLe x y then x :: y :: ys else y :: insertNat x ys

/-- Translation of `natsorted(seq, reverse=True)`: Python's stable sort by
the natsort key, descending, realized as a stable insertion sort (any two
stable sorts over the same total preorder agree). -/
def natsortedRev : List String → List String
  | [] => []
  | x :: xs => insertNat x (natsortedRev xs)

/-- Translation of `DockerHubSpider`'s filter
`re.compile(r'^\d+.\d+.\d+(-\d)?$')` applied with `re.match`; the dots are
unescaped here as well. -/
def DockerHubSpider.version_pattern (s : String) : Bool :=
  digitsPlus (anyCharThen (digitsPlus (anyCharThen (digitsPlus
    (fun l =>
      atEndDollar l ||
        (match l with
         | '-' :: d :: rest => d.isDigit && atEndDollar rest
         | _ => false)))))) s.toList

/-- Translation of `DockerHubSpider.get_version` over the tag names in the
registry response: filter by the pattern, sort with
`natsorted(..., reverse=True)` and take `versions[0]` (an `IndexError`
when the filtered list is empty). -/
def DockerHubSpider.get_version (tags : List String) (b : Bool) :
    Except SpiderError String :=
  match natsortedRev (tags.filter DockerHubSpider.version_pattern) with
  | [] => .error .indexError
  | v :: _ => .ok (_beautify_version v b)

/-- Translation of `GithubReleaseSpider.get_version` over the release tag
names: no filter, `natsorted(versions, reverse=True)`, then
`reverse_versions[0]` (an `IndexError` when the release list is empty). -/
def GithubReleaseSpider.get_version (tags : List String) (b : Bool) :
    Except SpiderError String :=
  match natsortedRev tags with
  | [] => .error .indexError
  | v :: _ => .ok (_beautify_version v b)

/-- Fuel-driven translation of Python `str.replace` (all non-overlapping
occurrences, scanning left to right); the fuel is the string length, which
suffices because each step consumes at least one character for the
non-empty patterns used here. -/
def replaceAllAux : Nat → List Char → List Char → List Char → List Char
  | 0, s, _, _ => s
  | Nat.succ n, s, pat, repl =>
      match s with
      | [] => []
      | c :: rest =>
          if pat.isPrefixOf (c :: rest) then
            repl ++ replaceAllAux n ((c :: rest).drop pat.length) pat repl
          else c :: replaceAllAux n rest pat repl

/-- Python `s.replace(pat, repl)`. -/
def pyReplace (s pat repl : String) : String :=
  String.mk (replaceAllAux s.toList.length s.toList pat.toList repl.toList)

/-- Translation of `SonarQubeReleaseSpider.get_version` over the hyperlink
targets scraped from the distribution page: keep links that start with
`sonarqube-` and end with `.zip`, strip those decorations with
`str.replace`, natural-sort descending, and raise a descriptive
`ValueError` when the filtered list is empty. -/
def SonarQubeReleaseSpider.get_version (links : List String) (b : Bool) :
    Except SpiderError String :=
  match natsortedRev ((links.filter (fun x =>
      "sonarqube-".toList.isPrefixOf x.toList &&
        ".zip".toList.isSuffixOf x.toList)).map
      (fun x => pyReplace (pyReplace x "sonarqube-" "") ".zip" "")) with
  | [] =>
      .error (.valueError "SonarQubeReleaseSpider failed to locate any releases")
  | v :: _ => .ok (_beautify_version v b)

/-- Structured data as returned by the cluster query tool and parsed from
YAML: a scalar string, a list, or a mapping with string keys. -/
inductive YData where
  | scalar (s : String)
  | list (items : List YData)
  | dict (entries : List (String × YData))

/-- Mapping access `section[p]` for dictionaries: `none` models the
`KeyError` raised on a missing key. -/
def lookupEntries : List (String × YData) → String → Option YData
  | [], _ => none
  | (k, v) :: rest, key => if k == key then some v else lookupEntries rest key

/-- Python `int(p)` on a path component: an optional sign followed by
digits (whitespace and underscore forms are not used by path patterns);
`none` models the `ValueError` on a non-numeric component. -/
def pyInt (s : String) : Option Int :=
  match s.toList with
  | [] => none
  | '-' :: rest =>
      if !rest.isEmpty && rest.all Char.isDigit then
        some (-(digitsToNat rest : Int))
      else none
  | '+' :: rest =>
      if !rest.isEmpty && rest.all Char.isDigit then
        some ((digitsToNat rest : Int))
      else none
  | l => if l.all Char.isDigit then some ((digitsToNat l : Int)) else none

/-- Python list indexing `items[n]`, including negative indices counted
from the end; `none` models the `IndexError` when out of range. -/
def pyIndex (items : List YData) (n : Int) : Option YData :=
  if 0 ≤ n then items.get? n.toNat
  else if n.natAbs ≤ items.length then items.get? (items.length - n.natAbs)
  else none

/-- Translation of the path-walking loop of
`KubernetesImageVersionSpider.get_version`: for each component of the
dotted pattern, a list-valued section converts the component with `int`
and indexes, any other section is accessed as a mapping key; `none`
models any of the exceptions the loop can raise (indexing into a scalar
raises a `TypeError`). -/
def walk : YData → List String → Option YData
  | d, [] => some d
  | YData.list items, p :: ps =>
      match pyInt p with
      | none => none
      | some n =>
          match pyIndex items n with
          | none => none
          | some d => walk d ps
  | YData.dict entries, p :: ps =>
      match lookupEntries entries p with
      | none => none
      | some d => walk d ps
  | YData.scalar _, _ :: _ => none

/-- Translation of `KubernetesImageVersionSpider.get_version` over the
parsed cluster data: walk the dotted pattern, then run the tuple
unpacking `(_, version) = section.split(':')`, which succeeds only when
the split yields exactly two parts, i.e. the reached string contains
exactly one `:`; `none` models every raised exception. -/
def KubernetesImageVersionSpider.get_version
    (data : YData) (pat : String) (b : Bool) : Option String :=
  match walk data ((splitOnChar '.' pat.toList).map (fun l => String.mk l)) with
  | some (YData.scalar sec) =>
      match splitOnChar ':' sec.toList with
      | [_, version] => some (_beautify_version (String.mk version) b)
      | _ => none
  | _ => none

/-- The tag isolation step as the claim words it: split the image
reference on the LAST `:` and keep what follows. -/
def splitLastColonTag (s : String) : Option String :=
  if (splitOnChar ':' s.toList).length ≥ 2 then
    some (String.mk ((splitOnChar ':' s.toList).getLastD []))
  else none

/-- Cluster data for the quoted example: `spec.containers.0.image`
reaches `"registry/example:v3.2.1"`. -/
def exampleK8sData : YData :=
  YData.dict [("spec", YData.dict [("containers", YData.list
    [YData.dict [("image", YData.scalar "registry/example:v3.2.1")]])])]

/-- Translation of `_contains_version(candidate)`: the code beautifies the
candidate and tests `re.match(r'[\d+.]+', beautified)` for truthiness.
The anchored match succeeds exactly when at least one leading character of
the beautified string lies in the character class, which contains the
digits, the literal `+`, and the literal `.`. -/
def _contains_version (candidate : String) : Bool :=
  let beautified := _beautify_version candidate true
  !((beautified.toList.takeWhile
      (fun c => c.isDigit || c == '+' || c == '.')).isEmpty)

/-- Predicate following the claim text literally: the beautified form
begins with a (non-empty) leading run of digits and `.` characters. -/
def looksLikeVersionSpec (candidate : String) : Bool :=
  !(((_beautify_version candidate true).toList.takeWhile
      (fun c => c.isDigit || c == '.')).isEmpty)

theorem splitOnChar_ne_nil (sep : Char) (l : List Char) :
    splitOnChar sep l ≠ [] := by
  cases l with
  | nil => simp [splitOnChar]
  | cons c rest =>
      simp only [splitOnChar]
      by_cases h : (c == sep) = true
      · simp [h]
      · simp only [h]
        cases splitOnChar sep rest with
        | nil => simp
        | cons p ps => simp

theorem splitOnChar_headD (sep : Char) (l : List Char) :
    (splitOnChar sep l).headD [] = l.takeWhile (fun c => !(c == sep)) := by
  induction l with
  | nil => simp [splitOnChar]
  | cons c rest ih =>
      simp only [splitOnChar, List.takeWhile]
      by_cases h : (c == sep) = true
      · simp [h]
      · simp only [h]
        have hne := splitOnChar_ne_nil sep rest
        cases hsp : splitOnChar sep rest with
        | nil => exact absurd hsp hne
        | cons p ps =>
            simp only [hsp, List.headD] at ih
            simp [ih]

theorem takeWhile_eq_self_of_not_contains (sep : Char) (l : List Char)
    (h : l.contains sep = false) :
    l.takeWhile (fun c => !(c == sep)) = l := by
  induction l with
  | nil => rfl
  | cons c rest ih =>
      simp only [List.contains_cons, Bool.or_eq_false_iff] at h
      simp only [List.takeWhile]
      have hc : (c == sep) = false := by
        cases hcs : c == sep with
        | false => rfl
        | true =>
            exfalso
            have := h.1
            rw [BEq.comm] at hcs
            simp [hcs] at this
      simp [hc, ih h.2]

theorem ifContains_eq (l : List Char) :
    (if l.contains '-' then (splitOnChar '-' l).headD [] else l) =
      l.takeWhile (fun c => !(c == '-')) := by
  cases hc : l.contains '-' with
  | true =>
      rw [if_pos rfl]
      exact splitOnChar_headD '-' l
  | false =>
      rw [if_neg (by simp)]
      exact (takeWhile_eq_self_of_not_contains '-' l hc).symm

theorem beautify_eq_takeWhile (version : String) :
    _beautify_version version true =
      String.mk
        ((if "release-".toList.isPrefixOf
              (version.toList.dropWhile (fun c => c == 'v')) then
            (version.toList.dropWhile (fun c => c == 'v')).drop 8
          else
            version.toList.dropWhile (fun c => c == 'v')).takeWhile
          (fun c => !(c == '-'))) :=
  congrArg String.mk (ifContains_eq _)

theorem stripLeadingVChars_eq_dropWhile (l : List Char) :
    stripLeadingVChars l = l.dropWhile (fun c => c == 'v') := by
  induction l with
  | nil => rfl
  | cons c rest ih =>
      simp only [stripLeadingVChars, List.dropWhile]
      cases hc : c == 'v' with
      | true => simpa [hc] using ih
      | false => simp [hc]

theorem mem_of_isPrefixOf {p l : List Char} {c : Char}
    (hp : p.isPrefixOf l = true) (hc : c ∈ p) : c ∈ l := by
  induction p generalizing l with
  | nil => simp at hc
  | cons a p' ih =>
      cases l with
      | nil => simp [List.isPrefixOf] at hp
      | cons b l' =>
          simp only [List.isPrefixOf, Bool.and_eq_true] at hp
          have hab : a = b := by
            have := hp.1
            simpa using this
          rcases List.mem_cons.mp hc with h | h
          · exact List.mem_cons.mpr (Or.inl (h.trans hab))
          · exact List.mem_cons.mpr (Or.inr (ih hp.2 h))

theorem takeWhile_not_mem (sep : Char) (l : List Char) :
    sep ∉ l.takeWhile (fun c => !(c == sep)) := by
  induction l with
  | nil => simp
  | cons c rest ih =>
      simp only [List.takeWhile]
      cases hc : (!(c == sep)) with
      | false => simp
      | true =>
          simp only [List.mem_cons, not_or]
          refine ⟨?_, ih⟩
          intro hEq
          rw [hEq] at hc
          simp at hc

theorem beautify_no_dash (x : String) :
    '-' ∉ (_beautify_version x true).toList := by
  rw [beautify_eq_takeWhile]
  exact takeWhile_not_mem '-' _

theorem beautify_fixed_point (y : String)
    (hv : strStartsWith y "v" = false) (hd : '-' ∉ y.toList) :
    _beautify_version y true = y := by
  have h1 : y.toList.dropWhile (fun c => c == 'v') = y.toList := by
    cases hy : y.toList with
    | nil => rfl
    | cons c r =>
        have hcv : (c == 'v') = false := by
          unfold strStartsWith at hv
          rw [hy] at hv
          cases hc : c == 'v' with
          | false => rfl
          | true =>
              have : c = 'v' := by simpa using hc
              subst this
              simp [List.isPrefixOf] at hv
        simp [List.dropWhile, hcv]
  have h2 : "release-".toList.isPrefixOf y.toList = false := by
    cases hp : "release-".toList.isPrefixOf y.toList with
    | false => rfl
    | true =>
        exact absurd (mem_of_isPrefixOf hp (by decide)) hd
  have h3 : (y.toList.contains '-') = false := by
    cases hc : y.toList.contains '-' with
    | false => rfl
    | true =>
        exact absurd (by simpa using hc) hd
  show (if !true then y else _) = y
  rw [if_neg (by simp)]
  simp only [h1, h2, Bool.false_eq_true, if_false, h3]
  cases y
  rfl

/-- Claim C2 counterexample: `beautify` is not idempotent.  On
`"release-v1.2.3"` one application gives `"v1.2.3"` (the `release-` drop
exposes a `v` that is no longer stripped), and a second application gives
`"1.2.3"`. -/
theorem beautify_not_idempotent_cex :
    ¬ (_beautify_version (_beautify_version "release-v1.2.3" true) true =
        _beautify_version "release-v1.2.3" true) := by
  decide

/-- Claim C2 (amended): `beautify` is idempotent on every string whose
beautified form does not begin with a `v` character:
`beautify(beautify(x)) = beautify(x)` whenever `beautify(x)` does not start
with `"v"`. -/
theorem beautify_idempotent_of_not_v (x : String)
    (hv : strStartsWith (_beautify_version x true) "v" = false) :
    _beautify_version (_beautify_version x true) true =
      _beautify_version x true :=
  beautify_fixed_point _ hv (beautify_no_dash x)

/-- Witness for the amended claim C2 at `x = "v1.2.3-rc1"`. -/
theorem beautify_idempotent_of_not_v_witness :
    _beautify_version (_beautify_version "v1.2.3-rc1" true) true =
      _beautify_version "v1.2.3-rc1" true :=
  beautify_idempotent_of_not_v "v1.2.3-rc1" (by decide)

/-- Claim C1 counterexample: the code strips ALL leading `v` characters
(Python `lstrip('v')`), so on `"vv1.2.3"` it returns `"1.2.3"`, while the
claimed four-step reference definition (strip a SINGLE leading `v`)
returns `"v1.2.3"`.  Hence `beautify` does not equal the claimed reference
definition on every input. -/
theorem beautify_single_v_cex :
    _beautify_version "vv1.2.3" true = "1.2.3" ∧
      beautifySpecSingleV "vv1.2.3" = "v1.2.3" := by
  constructor <;> decide

/-- Claim C1 (amended): with normalization requested, `_beautify_version`
equals the four-step reference definition in which step one strips ALL
leading `v` characters; and the four quoted examples evaluate as stated. -/
theorem beautify_matches_reference_allv :
    (∀ version : String,
        _beautify_version version true = beautifySpecAllV version) ∧
      _beautify_version "v1.2.3" true = "1.2.3" ∧
      _beautify_version "release-2.0.0" true = "2.0.0" ∧
      _beautify_version "1.2.3-rc1" true = "1.2.3" ∧
      _beautify_version "1.2.3" true = "1.2.3" := by
  refine ⟨?_, by decide, by decide, by decide, by decide⟩
  intro version
  rw [beautify_eq_takeWhile]
  simp [beautifySpecAllV, stripLeadingVChars_eq_dropWhile]

/-- Claim C3: the prefix-filter release-list strategy returns, for the
first release (in API order) whose beautified tag starts with the filter
string, the beautified tag when normalize is true and the original raw tag
when normalize is false; it fails when no beautified tag starts with the
filter string; and the quoted example over raw tags
`["v2.0.0", "v1.9.5-legacy", "1.9.0"]` evaluates as stated. -/
theorem GithubPrefixRelease_correct :
    (∀ (pre post : List String) (pfx tag : String) (b : Bool),
        (∀ t ∈ pre, strStartsWith (_beautify_version t true) pfx = false) →
        strStartsWith (_beautify_version tag true) pfx = true →
        GithubPrefixReleaseSpider.get_version (pre ++ tag :: post) pfx b =
          .ok (if b then _beautify_version tag true else tag)) ∧
      (∀ (releases : List String) (pfx : String) (b : Bool),
        (∀ t ∈ releases, strStartsWith (_beautify_version t true) pfx = false) →
        GithubPrefixReleaseSpider.get_version releases pfx b =
          .error (.valueError
            ("Failed to locate a release matching prefix: " ++ pfx))) ∧
      GithubPrefixReleaseSpider.get_version
          ["v2.0.0", "v1.9.5-legacy", "1.9.0"] "1.9" true = .ok "1.9.5" ∧
      GithubPrefixReleaseSpider.get_version
          ["v2.0.0", "v1.9.5-legacy", "1.9.0"] "1.9" false =
        .ok "v1.9.5-legacy" := by
  refine ⟨?_, ?_, by rfl, by rfl⟩
  · intro pre post pfx tag b hpre htag
    induction pre with
    | nil =>
        simp only [List.nil_append, GithubPrefixReleaseSpider.get_version]
        rw [if_pos htag]
    | cons t ts ih =>
        have ht := hpre t (by simp)
        simp only [List.cons_append, GithubPrefixReleaseSpider.get_version]
        rw [if_neg (by simp [ht])]
        exact ih (fun u hu => hpre u (by simp [hu]))
  · intro releases pfx b hall
    induction releases with
    | nil => rfl
    | cons t ts ih =>
        have ht := hall t (by simp)
        simp only [GithubPrefixReleaseSpider.get_version]
        rw [if_neg (by simp [ht])]
        exact ih (fun u hu => hall u (by simp [hu]))

/-- Witness for claim C3 at the quoted example with normalize set to
false, discharging the first-match hypotheses by evaluation. -/
theorem GithubPrefixRelease_correct_witness :
    GithubPrefixReleaseSpider.get_version ["v2.0.0", "v1.9.5-legacy"] "1.9"
        false = .ok "v1.9.5-legacy" := by
  have h := GithubPrefixRelease_correct.1 ["v2.0.0"] [] "1.9" "v1.9.5-legacy"
    false (by decide) (by decide)
  simpa using h

/-- Claim C6: on a file containing `FROM registry/example:1.4.0` among
other lines the Dockerfile strategy returns `"1.4.0"`; in general the
first matching line wins, and when no line matches it fails with a
`ValueError` whose message contains the file path. -/
theorem Dockerfile_get_version_correct :
    DockerfileSpider.get_version
        ["# builder image", "FROM registry/example:1.4.0", "RUN make"]
        "Dockerfile" true = .ok "1.4.0" ∧
      (∀ (pre post : List String) (line path g : String) (b : Bool),
        (∀ l ∈ pre, DockerfileSpider.matchVersion l = none) →
        DockerfileSpider.matchVersion line = some g →
        DockerfileSpider.get_version (pre ++ line :: post) path b =
          .ok (_beautify_version g b)) ∧
      (∀ (lines : List String) (path : String) (b : Bool),
        (∀ l ∈ lines, DockerfileSpider.matchVersion l = none) →
        DockerfileSpider.get_version lines path b =
          .error (.valueError ("No version found in " ++ path))) := by
  refine ⟨by rfl, ?_, ?_⟩
  · intro pre post line path g b hpre hline
    induction pre with
    | nil => simp [DockerfileSpider.get_version, hline]
    | cons t ts ih =>
        have ht := hpre t (by simp)
        simp only [List.cons_append, DockerfileSpider.get_version, ht]
        exact ih (fun u hu => hpre u (by simp [hu]))
  · intro lines path b hall
    induction lines with
    | nil => rfl
    | cons t ts ih =>
        have ht := hall t (by simp)
        simp only [DockerfileSpider.get_version, ht]
        exact ih (fun u hu => hall u (by simp [hu]))

/-- Witness for claim C6: a file with no matching line fails with the
message naming the path. -/
theorem Dockerfile_get_version_correct_witness :
    DockerfileSpider.get_version ["RUN make"] "Dockerfile" true =
      .error (.valueError ("No version found in " ++ "Dockerfile")) :=
  Dockerfile_get_version_correct.2.2 ["RUN make"] "Dockerfile" true
    (by decide)

theorem ne_of_isDigit {d c : Char} (hd : d.isDigit = true)
    (hc : c.isDigit = false) : d ≠ c := by
  intro he
  rw [he, hc] at hd
  exact absurd hd (by decide)

theorem fromGroup_head_digit {l g : List Char} (h : fromGroup l = some g) :
    ∃ d r, g = d :: r ∧ d.isDigit = true := by
  cases l with
  | nil => simp [fromGroup] at h
  | cons c rest =>
      simp only [fromGroup] at h
      by_cases hv : (c == 'v') = true
      · rw [if_pos hv] at h
        by_cases hd : (rest.headD ' ').isDigit = true
        · rw [if_pos hd] at h
          cases rest with
          | nil => exact absurd hd (by decide)
          | cons d rs =>
              exact ⟨d, rs, by simpa using h.symm, by simpa using hd⟩
        · rw [if_neg hd] at h
          simp at h
      · rw [if_neg hv] at h
        by_cases hd : c.isDigit = true
        · rw [if_pos hd] at h
          exact ⟨c, rest, by simpa using h.symm, hd⟩
        · rw [if_neg hd] at h
          simp at h

theorem scanColon_head_digit {l g : List Char} (h : scanColon l = some g) :
    ∃ d r, g = d :: r ∧ d.isDigit = true := by
  induction l with
  | nil => simp [scanColon] at h
  | cons c rest ih =>
      simp only [scanColon] at h
      cases hs : scanColon rest with
      | some g' =>
          rw [hs] at h
          exact ih (hs.trans (by simpa using h))
      | none =>
          rw [hs] at h
          by_cases hc : (c == ':') = true
          · rw [if_pos hc] at h
            exact fromGroup_head_digit h
          · rw [if_neg hc] at h
            simp at h

theorem beautify_head_digit (g : String) (b : Bool) {d : Char}
    {r : List Char} (hg : g.toList = d :: r) (hd : d.isDigit = true) :
    ∃ r', (_beautify_version g b).toList = d :: r' := by
  have hdv : (d == 'v') = false :=
    beq_false_of_ne (ne_of_isDigit hd (by decide))
  have hdr : (d == '-') = false :=
    beq_false_of_ne (ne_of_isDigit hd (by decide))
  have hrd : ('r' == d) = false :=
    beq_false_of_ne (Ne.symm (ne_of_isDigit hd (by decide)))
  cases b with
  | false => exact ⟨r, hg⟩
  | true =>
      rw [beautify_eq_takeWhile]
      have h1 : g.toList.dropWhile (fun c => c == 'v') = d :: r := by
        rw [hg, List.dropWhile_cons, if_neg (by simp [hdv])]
      have h2 : "release-".toList.isPrefixOf (d :: r) = false := by
        show (('r' == d) && ("elease-".toList.isPrefixOf r)) = false
        rw [hrd, Bool.false_and]
      refine ⟨r.takeWhile (fun c => !(c == '-')), ?_⟩
      show (if "release-".toList.isPrefixOf
            (g.toList.dropWhile (fun c => c == 'v')) = true then
          (g.toList.dropWhile (fun c => c == 'v')).drop 8
        else
          g.toList.dropWhile (fun c => c == 'v')).takeWhile
          (fun c => !(c == '-')) = _
      rw [h1, if_neg (by simp only [h2]; decide), List.takeWhile_cons,
        if_pos (by simp [hdr])]

/-- Claim C9: the Dockerfile regex places the optional `v` after the final
`:` outside the capture group, so `FROM a/b:v1.2.3` yields `"1.2.3"` under
both flag values, and in general any value this strategy returns starts
with a digit, never with a `v`. -/
theorem Dockerfile_never_returns_v :
    DockerfileSpider.get_version ["FROM a/b:v1.2.3"] "Dockerfile" false =
        .ok "1.2.3" ∧
      DockerfileSpider.get_version ["FROM a/b:v1.2.3"] "Dockerfile" true =
        .ok "1.2.3" ∧
      (∀ (lines : List String) (path v : String) (b : Bool),
        DockerfileSpider.get_version lines path b = .ok v →
        strStartsWith v "v" = false) := by
  refine ⟨by rfl, by rfl, ?_⟩
  intro lines path v b h
  induction lines with
  | nil => simp [DockerfileSpider.get_version] at h
  | cons line rest ih =>
      simp only [DockerfileSpider.get_version] at h
      cases hm : DockerfileSpider.matchVersion line with
      | none =>
          rw [hm] at h
          exact ih h
      | some g =>
          rw [hm] at h
          have hv : v = _beautify_version g b := by
            simpa using h.symm
          unfold DockerfileSpider.matchVersion at hm
          by_cases hp : "FROM ".toList.isPrefixOf line.toList = true
          · rw [if_pos hp] at hm
            cases hs : scanColon (line.toList.drop 5) with
            | none => rw [hs] at hm; simp at hm
            | some gl =>
                rw [hs] at hm
                have hggl : g = String.mk gl := by simpa using hm.symm
                obtain ⟨d, r, hgl, hd⟩ := scanColon_head_digit hs
                have hgt : g.toList = d :: r := by rw [hggl, hgl]; rfl
                obtain ⟨r', hb⟩ := beautify_head_digit g b hgt hd
                have hdv : ('v' == d) = false :=
                  beq_false_of_ne (Ne.symm (ne_of_isDigit hd (by decide)))
                rw [hv]
                show ("v".toList.isPrefixOf
                  (_beautify_version g b).toList) = false
                rw [hb]
                show (('v' == d) && (List.isPrefixOf [] r')) = false
                rw [hdv, Bool.false_and]
          · rw [if_neg hp] at hm
            simp at hm

/-- Witness for claim C9: a concrete returned value does not start with
`v`. -/
theorem Dockerfile_never_returns_v_witness :
    strStartsWith "9" "v" = false :=
  Dockerfile_never_returns_v.2.2 ["FROM x:9"] "p" "9" true (by rfl)

/-- Claim C7 is contradicted by the code: the source pattern
`^\d+.\d+.\d+$` leaves its dots unescaped, so `"1a2b3"` passes the filter
and is selected, although it is not of the strict `N.N.N` shape the class
docstring (`Assumes x.y.z tags are used!`) and the spec describe. -/
theorem Bitbucket_loose_pattern_eval :
    BitbucketReleaseSpider.version_pattern "1a2b3" = true ∧
      strict_nnn "1a2b3" = false ∧
      BitbucketReleaseSpider.get_version ["1a2b3"] true = .ok "1a2b3" :=
  ⟨by decide, by decide, by rfl⟩

/-- Claim C4: the ordering used by the highest-version strategies is the
natural one — numeric runs compare as integers, other runs lexically — so
descending sort gives `["1.10.0","1.9.0","1.2.0"]` and `["10.0","9.0"]`
(plain text order would put `"9.0"` first), ties keep their original
relative order (stable sort), and the registry strategy picks
`"1.10.0"` from the first set. -/
theorem natural_sort_correct :
    natsortedRev ["1.9.0", "1.10.0", "1.2.0"] =
        ["1.10.0", "1.9.0", "1.2.0"] ∧
      natsortedRev ["9.0", "10.0"] = ["10.0", "9.0"] ∧
      natsortedRev ["1.09", "1.9"] = ["1.09", "1.9"] ∧
      natsortedRev ["1.9", "1.09"] = ["1.9", "1.09"] ∧
      DockerHubSpider.get_version ["1.9.0", "1.10.0", "1.2.0"] true =
        .ok "1.10.0" :=
  ⟨by decide, by decide, by decide, by decide, by rfl⟩

/-- Claim C10: when the candidate list is empty after filtering, the
tag-API, registry tag-list, and release-list strategies fail with a bare
`IndexError` from the `[0]` access, while only the distribution-mirror
strategy checks for emptiness and raises a descriptive error. -/
theorem empty_candidates_index_error :
    (∀ (tags : List String) (b : Bool),
        tags.filter BitbucketReleaseSpider.version_pattern = [] →
        BitbucketReleaseSpider.get_version tags b = .error .indexError) ∧
      (∀ (tags : List String) (b : Bool),
        tags.filter DockerHubSpider.version_pattern = [] →
        DockerHubSpider.get_version tags b = .error .indexError) ∧
      (∀ b : Bool,
        GithubReleaseSpider.get_version [] b = .error .indexError) ∧
      (∀ (links : List String) (b : Bool),
        links.filter (fun x =>
            "sonarqube-".toList.isPrefixOf x.toList &&
              ".zip".toList.isSuffixOf x.toList) = [] →
        SonarQubeReleaseSpider.get_version links b =
          .error (.valueError
            "SonarQubeReleaseSpider failed to locate any releases")) := by
  refine ⟨?_, ?_, ?_, ?_⟩
  · intro tags b h
    unfold BitbucketReleaseSpider.get_version
    rw [h]
  · intro tags b h
    unfold DockerHubSpider.get_version
    rw [h]
    rfl
  · intro b
    rfl
  · intro links b h
    unfold SonarQubeReleaseSpider.get_version
    rw [h]
    rfl

/-- Witness for claim C10: a tag list whose only entry fails the filter
produces the bare index error. -/
theorem empty_candidates_index_error_witness :
    BitbucketReleaseSpider.get_version ["latest"] true =
      .error .indexError :=
  empty_candidates_index_error.1 ["latest"] true (by decide)

/-- Claim C5 counterexample: on an image reference with a registry port,
`"localhost:5000/app:1.0"`, splitting on the last `:` would produce the
tag `"1.0"`, but the code's two-element tuple unpacking of `split(':')`
raises, so `get_version` fails instead of returning `"1.0"`. -/
theorem Kubernetes_last_colon_cex :
    KubernetesImageVersionSpider.get_version
        (YData.dict [("spec", YData.scalar "localhost:5000/app:1.0")])
        "spec" true = none ∧
      (splitLastColonTag "localhost:5000/app:1.0").map
          (fun v => _beautify_version v true) = some "1.0" := by
  constructor <;> rfl

theorem splitOnChar_length (sep : Char) (l : List Char) :
    (splitOnChar sep l).length = l.count sep + 1 := by
  induction l with
  | nil => rfl
  | cons c rest ih =>
      simp only [splitOnChar]
      by_cases h : (c == sep) = true
      · rw [if_pos h]
        simp [List.count_cons, h, ih]
      · rw [if_neg h]
        cases hp : splitOnChar sep rest with
        | nil => exact absurd hp (splitOnChar_ne_nil sep rest)
        | cons p ps =>
            rw [hp] at ih
            simp only [List.length_cons] at ih ⊢
            simp [List.count_cons, h, ih]

/-- Claim C5 (amended): the cluster-resource image-field strategy walks
the dot-separated path (a purely numeric component indexing into a list,
as in the quoted example), then splits the reached string on its UNIQUE
`:`; it fails when the path cannot be walked and when the reached string
does not contain exactly one `:` separator (in particular when it has
none); for `spec.containers.0.image` reaching
`"registry/example:v3.2.1"` it returns `"3.2.1"`. -/
theorem Kubernetes_get_version_correct :
    KubernetesImageVersionSpider.get_version exampleK8sData
        "spec.containers.0.image" true = some "3.2.1" ∧
      (∀ (data : YData) (pat : String) (b : Bool),
        walk data ((splitOnChar '.' pat.toList).map (fun l => String.mk l)) =
          none →
        KubernetesImageVersionSpider.get_version data pat b = none) ∧
      (∀ (data : YData) (pat : String) (b : Bool) (sec : String),
        walk data ((splitOnChar '.' pat.toList).map (fun l => String.mk l)) =
          some (YData.scalar sec) →
        sec.toList.count ':' ≠ 1 →
        KubernetesImageVersionSpider.get_version data pat b = none) := by
  refine ⟨by rfl, ?_, ?_⟩
  · intro data pat b h
    unfold KubernetesImageVersionSpider.get_version
    rw [h]
  · intro data pat b sec hw hc
    unfold KubernetesImageVersionSpider.get_version
    rw [hw]
    show (match splitOnChar ':' sec.toList with
      | [_, version] => some (_beautify_version (String.mk version) b)
      | _ => none) = none
    have hlen : (splitOnChar ':' sec.toList).length ≠ 2 := by
      rw [splitOnChar_length]
      omega
    cases hp : splitOnChar ':' sec.toList with
    | nil => rfl
    | cons a rest =>
        cases rest with
        | nil => rfl
        | cons y rest2 =>
            cases rest2 with
            | nil =>
                rw [hp] at hlen
                exact absurd rfl hlen
            | cons z rest3 => rfl

/-- Witness for the amended claim C5: an unwalkable path makes the
strategy fail. -/
theorem Kubernetes_get_version_correct_witness :
    KubernetesImageVersionSpider.get_version (YData.dict []) "a" true =
      none :=
  Kubernetes_get_version_correct.2.1 (YData.dict []) "a" true (by rfl)

/-- Claim C8 counterexample: the character class in the source regex also
contains a literal `+`, so `_contains_version "+1"` is true although the
beautified form `"+1"` does not begin with a digit or `.` character. -/
theorem contains_version_plus_cex :
    _contains_version "+1" = true ∧ looksLikeVersionSpec "+1" = false := by
  constructor <;> decide

/-- Claim C8 (amended): `_contains_version candidate` is true exactly when
the first character of the beautified candidate is a digit, a `+`, or a
`.` (stated via `headD ' '`; the space default is in none of the three
cases, so an empty beautified form correctly yields false); and the two
quoted examples evaluate as stated. -/
theorem contains_version_head_char :
    (∀ c : String,
        _contains_version c =
          (((_beautify_version c true).toList.headD ' ').isDigit ||
            ((_beautify_version c true).toList.headD ' ') == '+' ||
            ((_beautify_version c true).toList.headD ' ') == '.')) ∧
      _contains_version "2.1.0" = true ∧
      _contains_version "latest" = false := by
  refine ⟨?_, by decide, by decide⟩
  intro c
  show (!((_beautify_version c true).toList.takeWhile
      (fun ch => ch.isDigit || ch == '+' || ch == '.')).isEmpty) = _
  cases h : (_beautify_version c true).toList with
  | nil => rfl
  | cons d r =>
      by_cases hd : (d.isDigit || d == '+' || d == '.') = true
      · simp [List.takeWhile_cons, hd]
      · simp only [Bool.not_eq_true] at hd
        simp [List.takeWhile_cons, hd]

/-- Witness for the amended claim C1 at a concrete input with several
leading `v` characters. -/
theorem beautify_matches_reference_allv_witness :
    _beautify_version "vvrelease-v9-x" true = beautifySpecAllV "vvrelease-v9-x" :=
  beautify_matches_reference_allv.1 "vvrelease-v9-x"

/-- Witness for the amended claim C8 at a concrete input. -/
theorem contains_version_head_char_witness :
    _contains_version "latest" = false :=
  contains_version_head_char.2.2
